import Mathlib

/-!
Verification development for the MediaApp file server (`server.js`).

The server exposes three filesystem-backed HTTP operations over a configured
media root: directory listing (`GET /api/browse/*`), range-aware byte
streaming (`GET /api/stream/*`) and whole-file download
(`GET /api/download/*`).  This file gives a shallow embedding of the
server's path algebra (Node's posix `path` module as used by the code),
its size formatter, its directory-entry construction and sorting, and the
three request handlers, and proves properties of the embedding.
-/

namespace MediaApp

/-! ### Node posix `path` semantics, on character lists

The server manipulates paths with `path.join`, `path.resolve`,
`path.posix.join` and `path.basename`, and compares them with
`String.prototype.startsWith`.  These are modelled here on `List Char`
(the process runs on posix, separator `'/'`).
-/

/-- Split a character list on a separator character, keeping empty pieces
(the segmentation underlying Node's path normalization, and also
`String.prototype.split` as used for range headers). -/
def splitOnChar (sep : Char) : List Char → List (List Char)
  | [] => [[]]
  | c :: rest =>
    if c = sep then [] :: splitOnChar sep rest
    else
      match splitOnChar sep rest with
      | [] => [[c]]
      | s :: ss => (c :: s) :: ss

/-- Node `normalizeString`: process path segments left to right, dropping
empty and `.` segments and resolving `..` against the accumulator; a `..`
with nothing to cancel is kept only when `allowAboveRoot` is true (Node
passes `!isAbsolute`).  The accumulator is kept reversed. -/
def normLoop (allowAboveRoot : Bool) : List (List Char) → List (List Char) → List (List Char)
  | acc, [] => acc.reverse
  | acc, seg :: rest =>
    if seg = [] ∨ seg = ['.'] then normLoop allowAboveRoot acc rest
    else if seg = ['.', '.'] then
      match acc with
      | [] =>
        if allowAboveRoot then normLoop allowAboveRoot [seg] rest
        else normLoop allowAboveRoot [] rest
      | top :: accRest =>
        if top = ['.', '.'] then normLoop allowAboveRoot (seg :: acc) rest
        else normLoop allowAboveRoot accRest rest
    else normLoop allowAboveRoot (seg :: acc) rest

/-- Join path segments with `'/'` separators (no leading or trailing
separator). -/
def intercalateSlash : List (List Char) → List Char
  | [] => []
  | [s] => s
  | s :: rest => s ++ '/' :: intercalateSlash rest

/-- Node posix `path.normalize` on character lists: record whether the
input is absolute and whether it has a trailing separator, normalize the
segments, and reassemble (empty result is `/` when absolute, else `.` or
`./`). -/
def pathNormalizeChars (l : List Char) : List Char :=
  let isAbs : Bool := l.head? = some '/'
  let trailing : Bool := l.getLast? = some '/'
  let core := intercalateSlash (normLoop (!isAbs) [] (splitOnChar '/' l))
  if core = [] then
    if isAbs then ['/'] else if trailing then ['.', '/'] else ['.']
  else
    let withTrail := if trailing then core ++ ['/'] else core
    if isAbs then '/' :: withTrail else withTrail

/-- Node posix `path.join(...parts)`: drop empty arguments, concatenate
with `'/'`, and normalize; with no nonempty argument the result is `.`. -/
def joinParts (parts : List (List Char)) : List Char :=
  let ne := parts.filter (fun p => !p.isEmpty)
  if ne.isEmpty then ['.'] else pathNormalizeChars (intercalateSlash ne)

/-- `path.join(a, b)` as used on lines 26, 42, 102 and 152 of the server. -/
def pathJoin (a b : String) : String := ⟨joinParts [a.data, b.data]⟩

/-- `path.posix.join('/', a, b)` as used on line 44 of the server. -/
def pathPosixJoin3 (a b c : String) : String := ⟨joinParts [a.data, b.data, c.data]⟩

/-- Node posix `path.resolve(p)` against the (absolute) process working
directory `cwd`: prepend `cwd` unless `p` is already absolute, then
normalize with `allowAboveRoot = false`; the result always starts with
`'/'`. -/
def pathResolveChars (cwd p : List Char) : List Char :=
  let combined := if p.head? = some '/' then p else cwd ++ '/' :: p
  '/' :: intercalateSlash (normLoop false [] (splitOnChar '/' combined))

/-- `path.resolve(MEDIA_ROOT)` as used in the security checks. -/
def pathResolve (cwd p : String) : String := ⟨pathResolveChars cwd.data p.data⟩

/-- Node posix `path.basename`: the last nonempty `'/'`-separated segment
(empty for `/`). -/
def pathBasename (p : String) : String :=
  ⟨((splitOnChar '/' p.data).filter (fun s => !s.isEmpty)).getLastD []⟩

/-- `String.prototype.startsWith`: character-wise prefix test. -/
def jsStartsWith (s pre : String) : Bool := pre.data.isPrefixOf s.data

/-- The server's containment check (lines 29, 105, 155):
`path.join(MEDIA_ROOT, requestPath).startsWith(path.resolve(MEDIA_ROOT))`. -/
def securityCheckPasses (cwd root requestPath : String) : Bool :=
  jsStartsWith (pathJoin root requestPath) (pathResolve cwd root)

/-! ### `formatFileSize` (server lines 182-188)

```
function formatFileSize(bytes) {
  if (bytes === 0) return '0 B';
  const k = 1024;
  const sizes = ['B', 'KB', 'MB', 'GB', 'TB'];
  const i = Math.floor(Math.log(bytes) / Math.log(k));
  return parseFloat((bytes / Math.pow(k, i)).toFixed(1)) + ' ' + sizes[i];
}
```
`Math.floor(Math.log bytes / Math.log 1024)` is modelled as the exact
floor of the base-1024 logarithm (`logFloor`, fuelled structural
recursion).  This agrees with the IEEE-double computation only for
`bytes ≤ 1024^5 - 4`: in doubles, `Math.log(bytes)/Math.log(1024)`
already rounds to exactly `5.0` at `bytes = 1024^5 - 3`, where the code
reads `sizes[5] = undefined`, so theorems about this model are stated
only below `1024^5 - 3` (at lower unit boundaries the ratio's distance
from the integer exceeds half an ulp, so floors agree).  `toFixed(1)`
rounds to tenths with ties going up and is exact here because the
divisor is a power of two, and `parseFloat` of the resulting literal
drops a trailing `.0`.
-/

/-- Floor of the base-`k` logarithm of `n`, by fuelled recursion
(`fuel ≥ n` suffices). -/
def logFloor (k : Nat) : Nat → Nat → Nat
  | 0, _ => 0
  | fuel + 1, n => if n < k then 0 else logFloor k fuel (n / k) + 1

/-- The `sizes` array of `formatFileSize`. -/
def sizesList : List String := ["B", "KB", "MB", "GB", "TB"]

/-- `(bytes / p).toFixed(1)` as an integer number of tenths: round half
up, computed exactly. -/
def jsToFixed1 (bytes p : Nat) : Nat := (20 * bytes + p) / (2 * p)

/-- `formatFileSize` (server lines 182-188).  A JavaScript out-of-bounds
array read yields `undefined`, which string concatenation renders as
`"undefined"`.  Faithful to the code for `bytes ≤ 1024^5 - 4` (see the
section comment above for the floating-point boundary). -/
def formatFileSize (bytes : Nat) : String :=
  if bytes = 0 then "0 B"
  else
    let i := logFloor 1024 bytes bytes
    let tenths := jsToFixed1 bytes (1024 ^ i)
    let numStr :=
      if tenths % 10 = 0 then toString (tenths / 10)
      else toString (tenths / 10) ++ "." ++ toString (tenths % 10)
    numStr ++ " " ++ ((sizesList.get? i).getD "undefined")

/-- The spec-side unit choice: the largest unit among B, KB, MB, GB, TB
whose scaled value is at least 1 (explicit threshold search, independent
of `logFloor`). -/
def specUnitIndex (bytes : Nat) : Nat :=
  if 1024 ^ 4 ≤ bytes then 4
  else if 1024 ^ 3 ≤ bytes then 3
  else if 1024 ^ 2 ≤ bytes then 2
  else if 1024 ≤ bytes then 1
  else 0

/-- The spec-side rounding: `bytes / p` to the nearest tenth (half up),
as a number of tenths. -/
def specRoundTenths (bytes p : Nat) : Nat := (10 * bytes + p / 2) / p

/-- Rendering per the spec's words, with the rendering amendment the code
forces: the byte count scaled by the largest unit whose scaled value is
at least 1, rounded to one decimal, with a trailing `.0` dropped; `0`
renders as `0 B`. -/
def formatSizeSpec (bytes : Nat) : String :=
  if bytes = 0 then "0 B"
  else
    let i := specUnitIndex bytes
    let tenths := specRoundTenths bytes (1024 ^ i)
    let numStr :=
      if tenths % 10 = 0 then toString (tenths / 10)
      else toString (tenths / 10) ++ "." ++ toString (tenths % 10)
    numStr ++ " " ++ ((sizesList.get? i).getD "B")

/-! ### MIME classification (`mime.lookup`) -/

/-- Node posix `path.extname` on character lists: the extension of the
last `'/'`-separated segment, from its last `'.'` (a dot that begins the
segment does not count). -/
def extnameChars (l : List Char) : List Char :=
  let base := (l.reverse.takeWhile (fun c => c ≠ '/')).reverse
  match base with
  | [] => []
  | _ :: rest =>
    let tailRev := rest.reverse.takeWhile (fun c => c ≠ '.')
    if tailRev.length = rest.length then []
    else '.' :: tailRev.reverse

/-- Modelled from the spec: the extension-to-MIME-type table of the
`mime-types` npm package (not part of `src/`); this is a representative
subset, a "pure function over a static extension table" in the spec's
words. -/
def mimeDb : List (String × String) :=
  [("mp4", "video/mp4"), ("mkv", "video/x-matroska"), ("avi", "video/x-msvideo"),
   ("mov", "video/quicktime"), ("webm", "video/webm"),
   ("jpg", "image/jpeg"), ("jpeg", "image/jpeg"), ("png", "image/png"), ("gif", "image/gif"),
   ("mp3", "audio/mpeg"), ("wav", "audio/wav"), ("flac", "audio/flac"),
   ("txt", "text/plain"), ("pdf", "application/pdf"), ("json", "application/json")]

/-- `mime.lookup(path)`: the lowercased extension of `'x.' + path` looked
up in the table (`false`, i.e. `none`, when there is no extension or no
table entry). -/
def mimeLookup (p : String) : Option String :=
  let extension : String := ⟨((extnameChars ('x' :: '.' :: p.data)).drop 1).map Char.toLower⟩
  if extension = "" then none
  else (mimeDb.find? (fun e => e.1 == extension)).map (fun e => e.2)

/-! ### Directory entries and their sort order -/

/-- One element of a directory listing, as built on server lines 46-73. -/
structure MediaEntry where
  name : String
  type : String
  path : String
  size : Option String
  modified : String
deriving DecidableEq, Repr

/-- `mtime.toISOString().split('T')[0]`: the date part of an ISO
timestamp. -/
def isoDate (mt : String) : String := ⟨mt.data.takeWhile (fun c => c ≠ 'T')⟩

/-- Lexicographic strict comparison of character lists by code point. -/
def lexLt : List Char → List Char → Bool
  | [], [] => false
  | [], _ :: _ => true
  | _ :: _, [] => false
  | a :: as, b :: bs => if a < b then true else if b < a then false else lexLt as bs

/-- `a.localeCompare(b)` (server line 81), modelled as the case-insensitive
code-point comparison of the two strings (locale-aware collation idealized
at primary strength: compare the lowercased strings). -/
def localeCompare (a b : String) : Int :=
  if lexLt (a.data.map Char.toLower) (b.data.map Char.toLower) then -1
  else if lexLt (b.data.map Char.toLower) (a.data.map Char.toLower) then 1
  else 0

/-- The sort comparator of server lines 78-82: folders strictly first,
then `localeCompare` on names. -/
def entryComparator (a b : MediaEntry) : Int :=
  if a.type = "folder" ∧ ¬ b.type = "folder" then -1
  else if ¬ a.type = "folder" ∧ b.type = "folder" then 1
  else localeCompare a.name b.name

/-- `a` may be placed before `b` by the comparator. -/
def entryLe (a b : MediaEntry) : Prop := entryComparator a b ≤ 0

instance : DecidableRel entryLe :=
  fun a b => inferInstanceAs (Decidable (entryComparator a b ≤ 0))

/-- `itemsWithStats.sort(comparator)` (server lines 78-82):
`Array.prototype.sort` with a consistent comparator, modelled as a
comparison sort by `entryLe`. -/
def sortEntries (l : List MediaEntry) : List MediaEntry := List.insertionSort entryLe l

/-- The group rank the comparator gives an entry: folders before
everything else. -/
def entryRank (e : MediaEntry) : Nat := if e.type = "folder" then 0 else 1

/-- The lowercased name by which entries are compared within a group. -/
def lowerName (e : MediaEntry) : List Char := e.name.data.map Char.toLower

/-- The ordering the spec asks of adjacent (in fact all) pairs of a
listing: no file before a folder, and names in case-insensitive
alphabetical order within a group. -/
def entryOrderOk (a b : MediaEntry) : Prop :=
  (b.type = "folder" → a.type = "folder") ∧
  ((a.type = "folder" ↔ b.type = "folder") →
    (lexLt (lowerName a) (lowerName b) = true ∨ lowerName a = lowerName b))

instance : DecidableRel entryOrderOk := by
  unfold entryOrderOk
  infer_instance

/-! ### Filesystem model and HTTP responses -/

/-- A filesystem node: a regular file with its byte content, or a
directory with its child names (plus the stat metadata the handlers
read: `size` and `mtime`). -/
inductive FNode where
  | file (content : List Nat) (mtimeIso : String)
  | dir (children : List String) (size : Nat) (mtimeIso : String)
deriving DecidableEq, Repr

/-- The filesystem: a finite map from absolute path strings to nodes. -/
def FileSystem := List (String × FNode)

/-- `fs.stat` / `fs.statSync` / `fs.existsSync`: look a path up. -/
def fsStat (fs : FileSystem) (p : String) : Option FNode :=
  (List.find? (fun e => e.1 == p) fs).map (fun e => e.2)

/-- `stat.size`: byte length for files, the stat size field for
directories. -/
def fnodeSize : FNode → Nat
  | .file content _ => content.length
  | .dir _ size _ => size

/-- A JSON value appearing in the browse success payload. -/
inductive Jval where
  | str (s : String)
  | entries (l : List MediaEntry)
deriving DecidableEq, Repr

/-- A response body: a JSON error object `{error: msg}`, the browse
success object (ordered key-value pairs), or a byte stream read from a
path (optionally a `start`/`end` window, `createReadStream`). -/
inductive BodyV where
  | jsonError (msg : String)
  | browseJson (fields : List (String × Jval))
  | fileStream (path : String) (range : Option (Nat × Nat))
deriving DecidableEq, Repr

/-- An HTTP response: status code, headers as written by the handler, and
body. -/
structure Response where
  status : Nat
  headers : List (String × String)
  body : BodyV
deriving DecidableEq, Repr

/-- The bytes a `fileStream` body actually delivers: the whole file, or
the inclusive `start..end` window (`createReadStream` clips at EOF);
`none` when the path is not a regular file (the stream errors instead of
delivering bytes). -/
def deliveredBytes (fs : FileSystem) : BodyV → Option (List Nat)
  | .fileStream p none =>
    match fsStat fs p with
    | some (.file content _) => some content
    | _ => none
  | .fileStream p (some (s, e)) =>
    match fsStat fs p with
    | some (.file content _) => some ((content.drop s).take (e - s + 1))
    | _ => none
  | _ => none

/-- Build one `MediaEntry` from a child name and its stat (server lines
41-74). -/
def mediaEntryOf (requestPath item : String) (st : FNode) : MediaEntry :=
  let relativePath := pathPosixJoin3 "/" requestPath item
  match st with
  | .dir _ _ mt =>
    { name := item, type := "folder", path := relativePath,
      size := none, modified := isoDate mt }
  | .file content mt =>
    let fileType :=
      match mimeLookup item with
      | some m =>
        if jsStartsWith m "video/" then "video"
        else if jsStartsWith m "image/" then "image"
        else if jsStartsWith m "audio/" then "audio"
        else "file"
      | none => "file"
    { name := item, type := fileType, path := relativePath,
      size := some (formatFileSize content.length), modified := isoDate mt }

/-- `GET /api/browse/*` (server lines 23-97).  `param0` is
`req.params[0]`; the handler reads it as `req.params[0] || ''`.  A child
whose stat fails makes `Promise.all` reject with `ENOENT`, which the
`catch` maps to 404. -/
def browseHandler (cwd root : String) (fs : FileSystem) (param0 : Option String) : Response :=
  let requestPath := param0.getD ""
  let fullPath := pathJoin root requestPath
  if !(jsStartsWith fullPath (pathResolve cwd root)) then
    { status := 403, headers := [], body := .jsonError "Access denied" }
  else
    match fsStat fs fullPath with
    | none => { status := 404, headers := [], body := .jsonError "Directory not found" }
    | some (.file _ _) =>
      { status := 400, headers := [], body := .jsonError "Path is not a directory" }
    | some (.dir children _ _) =>
      let stats := children.map (fun item => (item, fsStat fs (pathJoin fullPath item)))
      if stats.any (fun e => e.2.isNone) then
        { status := 404, headers := [], body := .jsonError "Directory not found" }
      else
        let itemsWithStats :=
          stats.filterMap (fun e => e.2.map (fun st => mediaEntryOf requestPath e.1 st))
        { status := 200, headers := [],
          body := .browseJson
            [("current_path", .str (if requestPath = "" then "/" else requestPath)),
             ("items", .entries (sortEntries itemsWithStats))] }

/-- `parseInt(s, 10)` for the sign-free pieces produced by splitting a
range header on `'-'`: the leading run of decimal digits, `NaN` (`none`)
when there is none. -/
def jsParseIntChars (l : List Char) : Option Int :=
  let ds := l.takeWhile (fun c => c.isDigit)
  if ds.isEmpty then none
  else some (Int.ofNat (ds.foldl (fun acc c => 10 * acc + (c.toNat - 48)) 0))

/-- Remove the first occurrence of `pat` from a character list
(`range.replace(/bytes=/, "")`). -/
def removeFirstSub (pat : List Char) : List Char → List Char
  | [] => []
  | c :: rest =>
    if pat.isPrefixOf (c :: rest) then (c :: rest).drop pat.length
    else c :: removeFirstSub pat rest

/-- `range.replace(/bytes=/, "").split("-")` (server line 123). -/
def rangeParts (range : String) : List (List Char) :=
  splitOnChar '-' (removeFirstSub "bytes=".data range.data)

/-- `parseInt(parts[0], 10)` (server line 124). -/
def parseStart (range : String) : Option Int :=
  jsParseIntChars ((rangeParts range).headD [])

/-- `parts[1] ? parseInt(parts[1], 10) : fileSize - 1` (server line 125):
an absent or empty second piece defaults to `fileSize - 1`. -/
def parseEnd (range : String) (fileSize : Nat) : Option Int :=
  match (rangeParts range).get? 1 with
  | none => some ((fileSize : Int) - 1)
  | some e => if e.isEmpty then some ((fileSize : Int) - 1) else jsParseIntChars e

/-- `GET /api/stream/*` (server lines 100-147).  When the parsed `start`
is `NaN` or exceeds the parsed `end`, `fs.createReadStream` (line 128,
evaluated before `writeHead`) throws `ERR_OUT_OF_RANGE` synchronously;
Express forwards the throw to the error middleware (lines 191-194), which
responds 500. -/
def streamHandler (cwd root : String) (fs : FileSystem) (requestPath : String)
    (rangeHeader : Option String) : Response :=
  let fullPath := pathJoin root requestPath
  if !(jsStartsWith fullPath (pathResolve cwd root)) then
    { status := 403, headers := [], body := .jsonError "Access denied" }
  else
    match fsStat fs fullPath with
    | none => { status := 404, headers := [], body := .jsonError "File not found" }
    | some node =>
      let fileSize := fnodeSize node
      let mimeType := (mimeLookup fullPath).getD "application/octet-stream"
      match rangeHeader with
      | none =>
        { status := 200,
          headers := [("Content-Type", mimeType),
                      ("Content-Length", toString fileSize),
                      ("Accept-Ranges", "bytes")],
          body := .fileStream fullPath none }
      | some range =>
        match parseStart range, parseEnd range fileSize with
        | some startv, some endv =>
          if startv ≤ endv then
            { status := 206,
              headers := [("Content-Type", mimeType),
                          ("Content-Range",
                            "bytes " ++ toString startv ++ "-" ++ toString endv
                              ++ "/" ++ toString fileSize),
                          ("Accept-Ranges", "bytes"),
                          ("Content-Length", toString (endv - startv + 1))],
              body := .fileStream fullPath (some (startv.toNat, endv.toNat)) }
          else
            { status := 500, headers := [], body := .jsonError "Internal server error" }
        | _, _ => { status := 500, headers := [], body := .jsonError "Internal server error" }

/-- `GET /api/download/*` (server lines 150-165): `res.download(fullPath,
path.basename(fullPath))` sends the whole file with a
`Content-Disposition: attachment` header carrying the basename. -/
def downloadHandler (cwd root : String) (fs : FileSystem) (requestPath : String) : Response :=
  let fullPath := pathJoin root requestPath
  if !(jsStartsWith fullPath (pathResolve cwd root)) then
    { status := 403, headers := [], body := .jsonError "Access denied" }
  else
    match fsStat fs fullPath with
    | none => { status := 404, headers := [], body := .jsonError "File not found" }
    | some _ =>
      { status := 200,
        headers := [("Content-Type", (mimeLookup fullPath).getD "application/octet-stream"),
                    ("Content-Disposition",
                      "attachment; filename=\"" ++ pathBasename fullPath ++ "\"")],
        body := .fileStream fullPath none }

/-- The top-level keys of a JSON success payload (empty for the other
body forms). -/
def payloadKeys : BodyV → List String
  | .browseJson fields => fields.map (fun f => f.1)
  | _ => []

/-! ### Concrete fixtures for witnesses and counterexamples -/

/-- A sibling of the root whose name has the root as a string prefix. -/
def fsSibling : FileSystem :=
  [("/media-evil", .dir ["secret"] 4096 "2024-01-01T00:00:00.000Z"),
   ("/media-evil/secret", .file [7, 7, 7] "2024-01-01T00:00:00.000Z")]

/-- A 10-byte media file under the root. -/
def fsSmall : FileSystem :=
  [("/media/x.mp4", .file [10, 11, 12, 13, 14, 15, 16, 17, 18, 19] "2024-01-01T00:00:00.000Z")]

/-- Just the empty root directory. -/
def fsRootOnly : FileSystem := [("/media", .dir [] 4096 "2024-01-01T00:00:00.000Z")]

/-- The spec's listing example: files `b.mp4` and `a.txt` and directory
`A` in the root. -/
def fsListing : FileSystem :=
  [("/media", .dir ["b.mp4", "A", "a.txt"] 4096 "2024-01-02T10:00:00.000Z"),
   ("/media/b.mp4", .file [0, 1, 2] "2024-01-03T10:00:00.000Z"),
   ("/media/A", .dir [] 4096 "2024-01-04T10:00:00.000Z"),
   ("/media/a.txt", .file [65] "2024-01-05T10:00:00.000Z")]

/-- The entries the spec expects for `fsListing`, in the expected order:
folder `A` first, then `a.txt`, then `b.mp4`. -/
def listingItems : List MediaEntry :=
  [{ name := "A", type := "folder", path := "/A", size := none, modified := "2024-01-04" },
   { name := "a.txt", type := "file", path := "/a.txt", size := some "1 B",
     modified := "2024-01-05" },
   { name := "b.mp4", type := "video", path := "/b.mp4", size := some "3 B",
     modified := "2024-01-03" }]

/-- The success payload fields for `fsListing`. -/
def listingFields : List (String × Jval) :=
  [("current_path", .str "/"), ("items", .entries listingItems)]

/-- A subdirectory and a file under the root. -/
def fsDir : FileSystem :=
  [("/media/sub", .dir ["c.mp4"] 4096 "2024-01-01T00:00:00.000Z"),
   ("/media/sub/c.mp4", .file [1] "2024-01-01T00:00:00.000Z"),
   ("/media/f.txt", .file [65, 66] "2024-01-01T00:00:00.000Z")]

/-! ### Path algebra lemmas

A path normalized as relative never begins with `'/'`, while
`path.resolve` always produces a path beginning with `'/'`; hence with a
relative `MEDIA_ROOT` the containment check can never pass.
-/

theorem splitOnChar_not_mem (sep : Char) (l : List Char) :
    ∀ s ∈ splitOnChar sep l, sep ∉ s := by
  induction l with
  | nil =>
    intro s hs
    simp only [splitOnChar, List.mem_singleton] at hs
    subst hs; simp
  | cons c rest ih =>
    intro s hs
    simp only [splitOnChar] at hs
    by_cases hc : c = sep
    · rw [if_pos hc] at hs
      rcases List.mem_cons.mp hs with h | h
      · subst h; simp
      · exact ih s h
    · rw [if_neg hc] at hs
      cases hsp : splitOnChar sep rest with
      | nil =>
        rw [hsp] at hs
        simp only [List.mem_singleton] at hs
        subst hs
        intro hmem
        rcases List.mem_cons.mp hmem with h1 | h1
        · exact hc h1.symm
        · simp at h1
      | cons s0 ss =>
        rw [hsp] at hs
        rcases List.mem_cons.mp hs with h | h
        · subst h
          intro hmem
          rcases List.mem_cons.mp hmem with h1 | h1
          · exact hc h1.symm
          · exact (ih s0 (by rw [hsp]; exact List.mem_cons_self s0 ss)) h1
        · exact ih s (by rw [hsp]; exact List.mem_cons.mpr (Or.inr h))

theorem normLoop_good (b : Bool) (segs : List (List Char)) :
    ∀ acc : List (List Char), (∀ s ∈ acc, s ≠ [] ∧ '/' ∉ s) → (∀ s ∈ segs, '/' ∉ s) →
    ∀ s ∈ normLoop b acc segs, s ≠ [] ∧ '/' ∉ s := by
  induction segs with
  | nil =>
    intro acc hacc _ s hs
    simp only [normLoop] at hs
    exact hacc s (List.mem_reverse.mp hs)
  | cons seg rest ih =>
    intro acc hacc hsegs s hs
    have hrest : ∀ s ∈ rest, '/' ∉ s :=
      fun s hs => hsegs s (List.mem_cons.mpr (Or.inr hs))
    have hseg : '/' ∉ seg := hsegs seg (List.mem_cons_self seg rest)
    simp only [normLoop] at hs
    by_cases h1 : seg = [] ∨ seg = ['.']
    · rw [if_pos h1] at hs
      exact ih acc hacc hrest s hs
    · rw [if_neg h1] at hs
      by_cases h2 : seg = ['.', '.']
      · rw [if_pos h2] at hs
        cases acc with
        | nil =>
          dsimp only at hs
          cases b with
          | true =>
            rw [if_pos rfl] at hs
            refine ih [seg] ?_ hrest s hs
            intro t ht
            have h := List.mem_singleton.mp ht
            subst h
            exact ⟨by simp [h2], hseg⟩
          | false =>
            rw [if_neg (by simp : ¬ ((false : Bool) = true))] at hs
            exact ih [] (by simp) hrest s hs
        | cons top accRest =>
          dsimp only at hs
          by_cases h3 : top = ['.', '.']
          · rw [if_pos h3] at hs
            refine ih (seg :: top :: accRest) ?_ hrest s hs
            intro t ht
            rcases List.mem_cons.mp ht with h | h
            · subst h; exact ⟨by simp [h2], hseg⟩
            · exact hacc t h
          · rw [if_neg h3] at hs
            refine ih accRest ?_ hrest s hs
            intro t ht
            exact hacc t (List.mem_cons.mpr (Or.inr ht))
      · rw [if_neg h2] at hs
        refine ih (seg :: acc) ?_ hrest s hs
        intro t ht
        rcases List.mem_cons.mp ht with h | h
        · subst h
          refine ⟨?_, hseg⟩
          intro hnil
          exact h1 (Or.inl hnil)
        · exact hacc t h

theorem head_intercalateSlash (s : List Char) (rest : List (List Char)) (h : s ≠ []) :
    (intercalateSlash (s :: rest)).head? = s.head? := by
  cases rest with
  | nil => rfl
  | cons t ts =>
    cases s with
    | nil => exact absurd rfl h
    | cons a as => rfl

theorem intercalateSlash_head_ne (segs : List (List Char))
    (h : ∀ s ∈ segs, s ≠ [] ∧ '/' ∉ s) :
    (intercalateSlash segs).head? ≠ some '/' := by
  cases segs with
  | nil => simp [intercalateSlash]
  | cons s rest =>
    obtain ⟨hne, hnm⟩ := h s (List.mem_cons_self s rest)
    rw [head_intercalateSlash s rest hne]
    cases s with
    | nil => exact absurd rfl hne
    | cons a as =>
      simp only [List.head?_cons, ne_eq, Option.some.injEq]
      intro hA
      exact hnm (hA ▸ List.mem_cons_self a as)

theorem pathNormalizeChars_rel (l : List Char) (h : l.head? ≠ some '/') :
    (pathNormalizeChars l).head? ≠ some '/' := by
  have hd : (decide (l.head? = some '/')) = false := decide_eq_false h
  have hgood : ∀ s ∈ normLoop true [] (splitOnChar '/' l), s ≠ [] ∧ '/' ∉ s :=
    normLoop_good true (splitOnChar '/' l) [] (by simp) (splitOnChar_not_mem '/' l)
  have hI := intercalateSlash_head_ne _ hgood
  by_cases hcore : intercalateSlash (normLoop true [] (splitOnChar '/' l)) = []
  · by_cases ht : l.getLast? = some '/'
    · simp [pathNormalizeChars, hd, hcore, ht]
    · simp [pathNormalizeChars, hd, hcore, ht]
  · by_cases ht : l.getLast? = some '/'
    · cases hcase : intercalateSlash (normLoop true [] (splitOnChar '/' l)) with
      | nil => exact absurd hcase hcore
      | cons c cs =>
        rw [hcase] at hI
        simp only [List.head?_cons, ne_eq, Option.some.injEq] at hI
        simp [pathNormalizeChars, hd, hcase, ht]
        exact fun hEq => hI hEq
    · cases hcase : intercalateSlash (normLoop true [] (splitOnChar '/' l)) with
      | nil => exact absurd hcase hcore
      | cons c cs =>
        rw [hcase] at hI
        simp only [List.head?_cons, ne_eq, Option.some.injEq] at hI
        simp [pathNormalizeChars, hd, hcase, ht]
        exact fun hEq => hI hEq

theorem joinParts_two_rel (a b : List Char) (ha : a ≠ []) (hha : a.head? ≠ some '/') :
    (joinParts [a, b]).head? ≠ some '/' := by
  have haE : a.isEmpty = false := by
    cases a with
    | nil => exact absurd rfl ha
    | cons c cs => rfl
  by_cases hb : b.isEmpty
  · have hfil : List.filter (fun p => !p.isEmpty) [a, b] = [a] := by
      simp [List.filter, haE, hb]
    have hjp : joinParts [a, b] = pathNormalizeChars (intercalateSlash [a]) := by
      simp only [joinParts, hfil]
      rw [if_neg (by simp [haE] : ¬ (List.isEmpty [a] = true))]
    rw [hjp]
    exact pathNormalizeChars_rel _ (by rw [head_intercalateSlash a [] ha]; exact hha)
  · have hbE : b.isEmpty = false := by rwa [Bool.not_eq_true] at hb
    have hfil : List.filter (fun p => !p.isEmpty) [a, b] = [a, b] := by
      simp [List.filter, haE, hbE]
    have hjp : joinParts [a, b] = pathNormalizeChars (intercalateSlash [a, b]) := by
      simp only [joinParts, hfil]
      rw [if_neg (by simp [haE] : ¬ (List.isEmpty [a, b] = true))]
    rw [hjp]
    exact pathNormalizeChars_rel _ (by rw [head_intercalateSlash a [b] ha]; exact hha)

theorem pathResolve_data (cwd p : String) :
    ∃ t, (pathResolve cwd p).data = '/' :: t :=
  ⟨_, rfl⟩

theorem jsStartsWith_false_of_rel_root (cwd root requestPath : String)
    (h1 : root ≠ "") (h2 : root.data.head? ≠ some '/') :
    jsStartsWith (pathJoin root requestPath) (pathResolve cwd root) = false := by
  obtain ⟨t, ht⟩ := pathResolve_data cwd root
  have hroot : root.data ≠ [] := by
    intro hnil
    exact h1 (by cases root; simp_all)
  have hjoin : (pathJoin root requestPath).data.head? ≠ some '/' := by
    have : (pathJoin root requestPath).data = joinParts [root.data, requestPath.data] := rfl
    rw [this]
    exact joinParts_two_rel _ _ hroot h2
  unfold jsStartsWith
  rw [ht]
  cases hj : (pathJoin root requestPath).data with
  | nil => rfl
  | cons c cs =>
    rw [hj] at hjoin
    simp only [List.head?_cons, ne_eq, Option.some.injEq] at hjoin
    have : ('/' == c) = false := by
      simp only [beq_eq_false_iff_ne, ne_eq]
      intro hEq
      exact hjoin hEq.symm
    simp [List.isPrefixOf, this]

/-- The containment check can never pass when the configured root is a
nonempty relative path: the joined request path is relative while the
resolved root is absolute. -/
theorem securityCheckPasses_false_of_rel_root (cwd root requestPath : String)
    (h1 : root ≠ "") (h2 : root.data.head? ≠ some '/') :
    securityCheckPasses cwd root requestPath = false :=
  jsStartsWith_false_of_rel_root cwd root requestPath h1 h2

/-! ### Order properties of the listing comparator -/

theorem lexLt_asymm : ∀ a b : List Char, lexLt a b = true → lexLt b a = false := by
  intro a
  induction a with
  | nil =>
    intro b h
    cases b with
    | nil => simp [lexLt] at h
    | cons b0 bs => simp [lexLt]
  | cons a0 as ih =>
    intro b h
    cases b with
    | nil => simp [lexLt] at h
    | cons b0 bs =>
      simp only [lexLt] at h ⊢
      rcases lt_trichotomy a0 b0 with h1 | h1 | h1
      · rw [if_neg (lt_asymm h1), if_pos h1]
      · subst h1
        rw [if_neg (lt_irrefl _), if_neg (lt_irrefl _)] at h ⊢
        exact ih bs h
      · rw [if_neg (lt_asymm h1), if_pos h1] at h
        exact absurd h (by simp)

theorem lexLt_connex : ∀ a b : List Char, lexLt a b = false → lexLt b a = false → a = b := by
  intro a
  induction a with
  | nil =>
    intro b h1 _
    cases b with
    | nil => rfl
    | cons b0 bs => simp [lexLt] at h1
  | cons a0 as ih =>
    intro b h1 h2
    cases b with
    | nil => simp [lexLt] at h2
    | cons b0 bs =>
      simp only [lexLt] at h1 h2
      rcases lt_trichotomy a0 b0 with h | h | h
      · rw [if_pos h] at h1
        exact absurd h1 (by simp)
      · subst h
        rw [if_neg (lt_irrefl _), if_neg (lt_irrefl _)] at h1 h2
        rw [ih bs h1 h2]
      · rw [if_pos h] at h2
        exact absurd h2 (by simp)

theorem lexLt_trans : ∀ a b c : List Char,
    lexLt a b = true → lexLt b c = true → lexLt a c = true := by
  intro a
  induction a with
  | nil =>
    intro b c hab hbc
    cases b with
    | nil => simp [lexLt] at hab
    | cons b0 bs =>
      cases c with
      | nil => simp [lexLt] at hbc
      | cons c0 cs => simp [lexLt]
  | cons a0 as ih =>
    intro b c hab hbc
    cases b with
    | nil => simp [lexLt] at hab
    | cons b0 bs =>
      cases c with
      | nil => simp [lexLt] at hbc
      | cons c0 cs =>
        simp only [lexLt] at hab hbc ⊢
        rcases lt_trichotomy a0 b0 with h1 | h1 | h1
        · rcases lt_trichotomy b0 c0 with h2 | h2 | h2
          · rw [if_pos (lt_trans h1 h2)]
          · subst h2; rw [if_pos h1]
          · rw [if_neg (lt_asymm h2), if_pos h2] at hbc
            exact absurd hbc (by simp)
        · subst h1
          rcases lt_trichotomy a0 c0 with h2 | h2 | h2
          · rw [if_pos h2]
          · subst h2
            rw [if_neg (lt_irrefl _), if_neg (lt_irrefl _)] at hab hbc ⊢
            exact ih bs cs hab hbc
          · rw [if_neg (lt_asymm h2), if_pos h2] at hbc
            exact absurd hbc (by simp)
        · rw [if_neg (lt_asymm h1), if_pos h1] at hab
          exact absurd hab (by simp)

theorem entryLe_iff (a b : MediaEntry) :
    entryLe a b ↔ (entryRank a < entryRank b ∨
      (entryRank a = entryRank b ∧ lexLt (lowerName b) (lowerName a) = false)) := by
  unfold entryLe entryComparator localeCompare entryRank lowerName
  rcases Decidable.em (a.type = "folder") with ha | ha <;>
    rcases Decidable.em (b.type = "folder") with hb | hb
  · rw [if_neg (by simp [ha, hb] : ¬ (a.type = "folder" ∧ ¬ b.type = "folder")),
        if_neg (by simp [ha, hb] : ¬ (¬ a.type = "folder" ∧ b.type = "folder")),
        if_pos ha, if_pos hb]
    by_cases h1 : lexLt (a.name.data.map Char.toLower) (b.name.data.map Char.toLower) = true
    · rw [if_pos h1]
      simp [lexLt_asymm _ _ h1]
    · rw [if_neg h1]
      by_cases h2 : lexLt (b.name.data.map Char.toLower) (a.name.data.map Char.toLower) = true
      · rw [if_pos h2]
        simp [h2]
      · rw [if_neg h2]
        rw [Bool.not_eq_true] at h2
        simp [h2]
  · rw [if_pos (by exact ⟨ha, hb⟩), if_pos ha, if_neg hb]
    simp
  · rw [if_neg (by simp [ha] : ¬ (a.type = "folder" ∧ ¬ b.type = "folder")),
        if_pos (by exact ⟨ha, hb⟩), if_neg ha, if_pos hb]
    simp
  · rw [if_neg (by simp [ha] : ¬ (a.type = "folder" ∧ ¬ b.type = "folder")),
        if_neg (by simp [hb] : ¬ (¬ a.type = "folder" ∧ b.type = "folder")),
        if_neg ha, if_neg hb]
    by_cases h1 : lexLt (a.name.data.map Char.toLower) (b.name.data.map Char.toLower) = true
    · rw [if_pos h1]
      simp [lexLt_asymm _ _ h1]
    · rw [if_neg h1]
      by_cases h2 : lexLt (b.name.data.map Char.toLower) (a.name.data.map Char.toLower) = true
      · rw [if_pos h2]
        simp [h2]
      · rw [if_neg h2]
        rw [Bool.not_eq_true] at h2
        simp [h2]

theorem entryLe_total (a b : MediaEntry) : entryLe a b ∨ entryLe b a := by
  rw [entryLe_iff, entryLe_iff]
  rcases Nat.lt_trichotomy (entryRank a) (entryRank b) with h | h | h
  · exact Or.inl (Or.inl h)
  · by_cases h2 : lexLt (lowerName b) (lowerName a) = true
    · exact Or.inr (Or.inr ⟨h.symm, lexLt_asymm _ _ h2⟩)
    · rw [Bool.not_eq_true] at h2
      exact Or.inl (Or.inr ⟨h, h2⟩)
  · exact Or.inr (Or.inl h)

theorem entryLe_trans (a b c : MediaEntry) :
    entryLe a b → entryLe b c → entryLe a c := by
  rw [entryLe_iff, entryLe_iff, entryLe_iff]
  intro hab hbc
  rcases hab with hab | ⟨hab, hlab⟩
  · rcases hbc with hbc | ⟨hbc, _⟩
    · exact Or.inl (lt_trans hab hbc)
    · exact Or.inl (hbc ▸ hab)
  · rcases hbc with hbc | ⟨hbc, hlbc⟩
    · exact Or.inl (hab ▸ hbc)
    · refine Or.inr ⟨hab.trans hbc, ?_⟩
      by_cases hca : lexLt (lowerName c) (lowerName a) = true
      · by_cases hx : lexLt (lowerName a) (lowerName b) = true
        · exact absurd (lexLt_trans _ _ _ hca hx) (by simp [hlbc])
        · rw [Bool.not_eq_true] at hx
          have := lexLt_connex _ _ hx hlab
          rw [this] at hca
          exact absurd hca (by simp [hlbc])
      · rwa [Bool.not_eq_true] at hca

/-- The sorted listing is pairwise ordered by the comparator
(`Array.prototype.sort` with a consistent comparator sorts). -/
theorem sorted_sortEntries (l : List MediaEntry) : (sortEntries l).Pairwise entryLe := by
  haveI : IsTotal MediaEntry entryLe := ⟨entryLe_total⟩
  haveI : IsTrans MediaEntry entryLe := ⟨entryLe_trans⟩
  exact List.sorted_insertionSort entryLe l

theorem entryOrderOk_of_entryLe (a b : MediaEntry) (h : entryLe a b) : entryOrderOk a b := by
  rw [entryLe_iff] at h
  constructor
  · intro hbf
    by_cases haf : a.type = "folder"
    · exact haf
    · exfalso
      rcases h with h | ⟨h, _⟩ <;>
        · unfold entryRank at h
          rw [if_pos hbf, if_neg haf] at h
          omega
  · intro hiff
    rcases h with h | ⟨_, hlex⟩
    · exfalso
      unfold entryRank at h
      by_cases haf : a.type = "folder"
      · rw [if_pos haf, if_pos (hiff.mp haf)] at h
        omega
      · by_cases hbf : b.type = "folder"
        · exact absurd (hiff.mpr hbf) haf
        · rw [if_neg haf, if_neg hbf] at h
          omega
    · by_cases hx : lexLt (lowerName a) (lowerName b) = true
      · exact Or.inl hx
      · rw [Bool.not_eq_true] at hx
        exact Or.inr (lexLt_connex _ _ hx hlex)

/-- Every pair of a sorted listing (in order) satisfies the spec's
ordering. -/
theorem pairwise_entryOrderOk_sortEntries (l : List MediaEntry) :
    (sortEntries l).Pairwise entryOrderOk :=
  (sorted_sortEntries l).imp (fun h => entryOrderOk_of_entryLe _ _ h)

/-! ### `formatFileSize` agrees with the spec-side rendering below 1 PB -/

theorem logFloor_spec : ∀ fuel n : Nat, 0 < n → n ≤ fuel →
    1024 ^ (logFloor 1024 fuel n) ≤ n ∧ n < 1024 ^ (logFloor 1024 fuel n + 1) := by
  intro fuel
  induction fuel with
  | zero => intro n h1 h2; omega
  | succ fuel ih =>
    intro n h1 h2
    rw [logFloor]
    by_cases h : n < 1024
    · rw [if_pos h]
      constructor
      · simpa using h1
      · simpa using h
    · rw [if_neg h]
      push_neg at h
      have hm1 : 0 < n / 1024 := Nat.div_pos h (by norm_num)
      have hm2 : n / 1024 ≤ fuel := by
        have := Nat.div_lt_self h1 (by norm_num : (1:Nat) < 1024)
        omega
      obtain ⟨ihl, ihr⟩ := ih (n / 1024) hm1 hm2
      constructor
      · calc 1024 ^ (logFloor 1024 fuel (n / 1024) + 1)
            = 1024 ^ (logFloor 1024 fuel (n / 1024)) * 1024 := by rw [pow_succ]
          _ ≤ (n / 1024) * 1024 := Nat.mul_le_mul_right _ ihl
          _ ≤ n := Nat.div_mul_le_self n 1024
      · have h2' : n / 1024 + 1 ≤ 1024 ^ (logFloor 1024 fuel (n / 1024) + 1) := ihr
        calc n < 1024 * (n / 1024 + 1) := by
              have hdm := Nat.div_add_mod n 1024
              have hml := Nat.mod_lt n (by norm_num : 0 < 1024)
              omega
          _ ≤ 1024 * 1024 ^ (logFloor 1024 fuel (n / 1024) + 1) := Nat.mul_le_mul_left _ h2'
          _ = 1024 ^ (logFloor 1024 fuel (n / 1024) + 1 + 1) := by ring

theorem logFloor_eq_specUnitIndex (n : Nat) (h1 : 0 < n) (h2 : n < 1024 ^ 5) :
    logFloor 1024 n n = specUnitIndex n := by
  obtain ⟨hl, hr⟩ := logFloor_spec n n h1 (le_refl n)
  generalize hgen : logFloor 1024 n n = i at hl hr ⊢
  have hle4 : i ≤ 4 := by
    by_contra hgt
    push_neg at hgt
    have hpow : (1024:Nat) ^ 5 ≤ 1024 ^ i := Nat.pow_le_pow_right (by norm_num) hgt
    have := le_trans hpow hl
    omega
  unfold specUnitIndex
  interval_cases i <;> (norm_num at hl hr ⊢; split_ifs <;> omega)

theorem jsToFixed1_eq_specRoundTenths (b p : Nat) (hp : 0 < p) :
    jsToFixed1 b p = specRoundTenths b p := by
  unfold jsToFixed1 specRoundTenths
  have hlt : (10 * b + p / 2) % p < p := Nat.mod_lt _ hp
  have hmod := Nat.div_add_mod (10 * b + p / 2) p
  have hp2 := Nat.div_add_mod p 2
  have hp2lt : p % 2 < 2 := Nat.mod_lt _ (by norm_num)
  have key : 20 * b + p =
      (2 * p) * ((10 * b + p / 2) / p) + (2 * ((10 * b + p / 2) % p) + p % 2) := by
    have hf : (2 * p) * ((10 * b + p / 2) / p) = 2 * (p * ((10 * b + p / 2) / p)) := by
      ring
    omega
  rw [key, Nat.mul_add_div (by omega : 0 < 2 * p)]
  have hz : (2 * ((10 * b + p / 2) % p) + p % 2) / (2 * p) = 0 :=
    Nat.div_eq_of_lt (by omega)
  omega

theorem formatFileSize_eq_spec (n : Nat) (h2 : n < 1024 ^ 5) :
    formatFileSize n = formatSizeSpec n := by
  by_cases h0 : n = 0
  · subst h0; rfl
  · have h1 : 0 < n := Nat.pos_of_ne_zero h0
    have hidx := logFloor_eq_specUnitIndex n h1 h2
    have hfix := jsToFixed1_eq_specRoundTenths n ((1024 : Nat) ^ specUnitIndex n)
      (Nat.pos_pow_of_pos _ (by norm_num))
    have hle4 : specUnitIndex n ≤ 4 := by
      unfold specUnitIndex
      split_ifs <;> omega
    unfold formatFileSize formatSizeSpec
    rw [if_neg h0, if_neg h0]
    simp only [hidx, hfix]
    generalize specUnitIndex n = i at hle4
    interval_cases i <;> rfl

/-! ### Claim theorems -/

/-- C1: the claim states that every request either accesses only a path
equal to or strictly nested under the root or is rejected with 403, and
in particular that a sibling such as `/media-evil` against root `/media`
is rejected.  The code violates this: its check appends no separator to
the resolved root, so with `MEDIA_ROOT = "/media"` the request path
`../media-evil/secret` joins to `/media-evil/secret`, which passes the
`startsWith` check although it is neither the root nor nested under it,
and the handlers then stat, list and stream the sibling (status 200)
instead of returning 403. -/
theorem c1_sibling_escape_served :
    securityCheckPasses "/srv" "/media" "../media-evil/secret" = true ∧
    pathJoin "/media" "../media-evil/secret" = "/media-evil/secret" ∧
    jsStartsWith "/media-evil/secret" "/media/" = false ∧
    ("/media-evil/secret" : String) ≠ "/media" ∧
    (streamHandler "/srv" "/media" fsSibling "../media-evil/secret" none).status = 200 ∧
    deliveredBytes fsSibling
      (streamHandler "/srv" "/media" fsSibling "../media-evil/secret" none).body
      = some [7, 7, 7] ∧
    (downloadHandler "/srv" "/media" fsSibling "../media-evil/secret").status = 200 ∧
    (browseHandler "/srv" "/media" fsSibling (some "../media-evil")).status = 200 := by
  refine ⟨rfl, rfl, rfl, by decide, rfl, rfl, rfl, rfl⟩

/-- C2: the claim states that a semantically invalid range on an
existing in-root file yields 400 or 416, never a 2xx with an invalid
window.  The code never validates the parsed bounds: on a 10-byte file,
`Range: bytes=15-20` is answered 206 with `Content-Range: bytes 15-20/10`
and an empty body. -/
theorem c2_invalid_range_not_rejected :
    (streamHandler "/srv" "/media" fsSmall "x.mp4" (some "bytes=15-20")).status = 206 ∧
    ("Content-Range", "bytes 15-20/10")
      ∈ (streamHandler "/srv" "/media" fsSmall "x.mp4" (some "bytes=15-20")).headers ∧
    deliveredBytes fsSmall
      (streamHandler "/srv" "/media" fsSmall "x.mp4" (some "bytes=15-20")).body = some [] ∧
    ¬ (streamHandler "/srv" "/media" fsSmall "x.mp4" (some "bytes=15-20")).status = 400 ∧
    ¬ (streamHandler "/srv" "/media" fsSmall "x.mp4" (some "bytes=15-20")).status = 416 := by
  refine ⟨rfl, by decide, rfl, by decide, by decide⟩

/-- C9: with a relative configured root (such as the default `./media`),
`path.join(MEDIA_ROOT, requestPath)` is a relative string while
`path.resolve(MEDIA_ROOT)` is absolute, so the prefix check fails for
every request and browse, stream and download all answer 403 without
touching the filesystem. -/
theorem c9_relative_root_forbidden (cwd root requestPath : String) (fs : FileSystem)
    (param0 : Option String) (rangeHeader : Option String)
    (h1 : root ≠ "") (h2 : root.data.head? ≠ some '/') :
    (browseHandler cwd root fs param0).status = 403 ∧
    (streamHandler cwd root fs requestPath rangeHeader).status = 403 ∧
    (downloadHandler cwd root fs requestPath).status = 403 := by
  have hb := jsStartsWith_false_of_rel_root cwd root (param0.getD "") h1 h2
  have hs := jsStartsWith_false_of_rel_root cwd root requestPath h1 h2
  refine ⟨?_, ?_, ?_⟩
  · simp [browseHandler, hb]
  · simp [streamHandler, hs]
  · simp [downloadHandler, hs]

/-- C9 witness: with the default root `./media`, a concrete request is
403 on all three endpoints. -/
theorem c9_witness :
    (browseHandler "/srv" "./media" fsSmall (some "x.mp4")).status = 403 ∧
    (streamHandler "/srv" "./media" fsSmall "x.mp4" none).status = 403 ∧
    (downloadHandler "/srv" "./media" fsSmall "x.mp4").status = 403 :=
  c9_relative_root_forbidden "/srv" "./media" "x.mp4" fsSmall (some "x.mp4") none
    (by decide) (by decide)

/-- C3 counterexample: the claim (and the spec's test vector) says
`formatFileSize 1073741824 = "1.0 GB"`, but `parseFloat` drops the
trailing `.0`, so the code returns `"1 GB"`. -/
theorem c3_counterexample :
    formatFileSize 1073741824 = "1 GB" ∧ ("1 GB" : String) ≠ "1.0 GB" :=
  ⟨rfl, by decide⟩

/-- C3 amended: for every byte count below `1024^5 - 3` (from
`1024^5 - 3` on, the double-precision log ratio already reaches 5 and the
code's unit-table read is out of bounds, rendering `"1 undefined"`),
`formatFileSize` scales by the largest base-1024 unit among B, KB, MB,
GB, TB whose scaled value is at least 1 and renders with at most one
decimal place — the value rounded to one decimal with a trailing `.0`
dropped; in particular `formatFileSize 0 = "0 B"`,
`formatFileSize 1536 = "1.5 KB"`, and
`formatFileSize 1073741824 = "1 GB"` (not `"1.0 GB"`). -/
theorem c3_format_amended (bytes : Nat) (h : bytes < 1024 ^ 5 - 3) :
    formatFileSize bytes = formatSizeSpec bytes ∧
    formatFileSize 0 = "0 B" ∧ formatFileSize 1536 = "1.5 KB" ∧
    formatFileSize 1073741824 = "1 GB" :=
  ⟨formatFileSize_eq_spec bytes (lt_of_lt_of_le h (Nat.sub_le _ _)), rfl, rfl, rfl⟩

/-- C3 witness: the amended theorem applied at 1536. -/
theorem c3_witness :
    1536 < 1024 ^ 5 - 3 ∧
    (formatFileSize 1536 = formatSizeSpec 1536 ∧
     formatFileSize 0 = "0 B" ∧ formatFileSize 1536 = "1.5 KB" ∧
     formatFileSize 1073741824 = "1 GB") :=
  ⟨by decide, c3_format_amended 1536 (by decide)⟩

/-- C4 counterexample: the claim says the success payload's top-level
keys are `currentPath` and `items`; on a concrete successful listing the
keys are `current_path` and `items` — `currentPath` is not among them. -/
theorem c4_counterexample :
    (browseHandler "/srv" "/media" fsRootOnly (some "")).status = 200 ∧
    payloadKeys (browseHandler "/srv" "/media" fsRootOnly (some "")).body
      = ["current_path", "items"] ∧
    ¬ "currentPath" ∈ payloadKeys (browseHandler "/srv" "/media" fsRootOnly (some "")).body := by
  refine ⟨rfl, rfl, by decide⟩

/-- C4 amended: every successful directory listing has exactly the
top-level keys `current_path` and `items` (in that order), where
`current_path` is the requested path, or `"/"` when the requested path is
empty. -/
theorem c4_browse_payload (cwd root : String) (fs : FileSystem) (param0 : Option String)
    (h200 : (browseHandler cwd root fs param0).status = 200) :
    ∃ items, (browseHandler cwd root fs param0).body =
        .browseJson [("current_path",
            .str (if param0.getD "" = "" then "/" else param0.getD "")),
          ("items", .entries items)] ∧
      payloadKeys (browseHandler cwd root fs param0).body = ["current_path", "items"] := by
  cases hsec : jsStartsWith (pathJoin root (param0.getD "")) (pathResolve cwd root) with
  | false => simp [browseHandler, hsec] at h200
  | true =>
    rcases hstat : fsStat fs (pathJoin root (param0.getD "")) with _ | node
    · simp [browseHandler, hsec, hstat] at h200
    · cases node with
      | file content mt => simp [browseHandler, hsec, hstat] at h200
      | dir children sz mt =>
        by_cases hany :
            (List.map (fun item =>
                (item, fsStat fs (pathJoin (pathJoin root (param0.getD "")) item))) children).any
              (fun e => e.2.isNone) = true
        · simp [browseHandler, hsec, hstat, hany] at h200
        · refine ⟨sortEntries ((List.map (fun item =>
              (item, fsStat fs (pathJoin (pathJoin root (param0.getD "")) item))) children).filterMap
                (fun e => e.2.map (fun st => mediaEntryOf (param0.getD "") e.1 st))), ?_, ?_⟩ <;>
            simp [browseHandler, hsec, hstat, hany, payloadKeys]

/-- C4 witness: the amended theorem applied to a concrete successful
listing of the root. -/
theorem c4_witness :
    ∃ items, (browseHandler "/srv" "/media" fsRootOnly (some "")).body =
        .browseJson [("current_path",
            .str (if (some "").getD "" = "" then "/" else (some "").getD "")),
          ("items", .entries items)] ∧
      payloadKeys (browseHandler "/srv" "/media" fsRootOnly (some "")).body
        = ["current_path", "items"] :=
  c4_browse_payload "/srv" "/media" fsRootOnly (some "") (by decide)

/-- C6: a stream request for an existing in-root file with no range
header is answered 200 with `Content-Length` equal to the file size,
`Accept-Ranges: bytes`, and the entire file content (exactly size many
bytes) as body. -/
theorem c6_stream_no_range (cwd root requestPath : String) (fs : FileSystem)
    (content : List Nat) (mt : String)
    (hsec : jsStartsWith (pathJoin root requestPath) (pathResolve cwd root) = true)
    (hfile : fsStat fs (pathJoin root requestPath) = some (.file content mt)) :
    (streamHandler cwd root fs requestPath none).status = 200 ∧
    ("Content-Length", toString content.length)
      ∈ (streamHandler cwd root fs requestPath none).headers ∧
    ("Accept-Ranges", "bytes") ∈ (streamHandler cwd root fs requestPath none).headers ∧
    deliveredBytes fs (streamHandler cwd root fs requestPath none).body = some content ∧
    ∀ bs, deliveredBytes fs (streamHandler cwd root fs requestPath none).body = some bs →
      bs.length = content.length := by
  refine ⟨?_, ?_, ?_, ?_, ?_⟩
  · simp [streamHandler, hsec, hfile]
  · simp [streamHandler, hsec, hfile, fnodeSize]
  · simp [streamHandler, hsec, hfile]
  · simp [streamHandler, hsec, hfile, deliveredBytes]
  · intro bs hbs
    simp [streamHandler, hsec, hfile, deliveredBytes] at hbs
    rw [← hbs]

/-- C6 witness: the theorem applied to a concrete 10-byte file. -/
theorem c6_witness :
    (streamHandler "/srv" "/media" fsSmall "x.mp4" none).status = 200 ∧
    ("Content-Length", toString (10 : Nat))
      ∈ (streamHandler "/srv" "/media" fsSmall "x.mp4" none).headers ∧
    ("Accept-Ranges", "bytes") ∈ (streamHandler "/srv" "/media" fsSmall "x.mp4" none).headers ∧
    deliveredBytes fsSmall (streamHandler "/srv" "/media" fsSmall "x.mp4" none).body
      = some [10, 11, 12, 13, 14, 15, 16, 17, 18, 19] :=
  have h := c6_stream_no_range "/srv" "/media" "x.mp4" fsSmall
    [10, 11, 12, 13, 14, 15, 16, 17, 18, 19] "2024-01-01T00:00:00.000Z"
    (by decide) (by decide)
  ⟨h.1, h.2.1, h.2.2.1, h.2.2.2.1⟩

/-- C5: a stream request for an existing in-root file of size `S` whose
range header parses to `start` and `end` with `start ≤ end < S` (an
omitted end defaults to `S - 1`) is answered 206 with
`Content-Range: bytes start-end/S`, `Accept-Ranges: bytes`,
`Content-Length: end - start + 1`, and exactly the bytes of the file from
offset `start` through `end` inclusive as body. -/
theorem c5_stream_valid_range (cwd root requestPath : String) (fs : FileSystem)
    (content : List Nat) (mt : String) (range : String) (startv endv : Nat)
    (hsec : jsStartsWith (pathJoin root requestPath) (pathResolve cwd root) = true)
    (hfile : fsStat fs (pathJoin root requestPath) = some (.file content mt))
    (hstart : parseStart range = some ((startv : Nat) : Int))
    (hend : parseEnd range content.length = some ((endv : Nat) : Int))
    (hse : startv ≤ endv) (hes : endv < content.length) :
    (streamHandler cwd root fs requestPath (some range)).status = 206 ∧
    ("Content-Range",
        "bytes " ++ toString startv ++ "-" ++ toString endv ++ "/" ++ toString content.length)
      ∈ (streamHandler cwd root fs requestPath (some range)).headers ∧
    ("Accept-Ranges", "bytes")
      ∈ (streamHandler cwd root fs requestPath (some range)).headers ∧
    ("Content-Length", toString (endv - startv + 1))
      ∈ (streamHandler cwd root fs requestPath (some range)).headers ∧
    deliveredBytes fs (streamHandler cwd root fs requestPath (some range)).body
      = some ((content.drop startv).take (endv - startv + 1)) ∧
    ∀ bs, deliveredBytes fs (streamHandler cwd root fs requestPath (some range)).body
        = some bs → bs.length = endv - startv + 1 := by
  have hle : ((startv : Nat) : Int) ≤ ((endv : Nat) : Int) := by exact_mod_cast hse
  have hcl : (((endv : Nat) : Int) - ((startv : Nat) : Int) + 1) = ((endv - startv + 1 : Nat) : Int) := by
    omega
  have htn1 : (((startv : Nat) : Int)).toNat = startv := rfl
  have htn2 : (((endv : Nat) : Int)).toNat = endv := rfl
  have hts1 : toString ((startv : Nat) : Int) = toString startv := rfl
  have hts2 : toString ((endv : Nat) : Int) = toString endv := rfl
  have hts3 : toString ((endv - startv + 1 : Nat) : Int) = toString (endv - startv + 1) := rfl
  refine ⟨?_, ?_, ?_, ?_, ?_, ?_⟩
  · simp [streamHandler, hsec, hfile, fnodeSize, hstart, hend, hle]
  · simp [streamHandler, hsec, hfile, fnodeSize, hstart, hend, hle, hts1, hts2]
  · simp [streamHandler, hsec, hfile, fnodeSize, hstart, hend, hle]
  · simp only [streamHandler, hsec, hfile, fnodeSize, hstart, hend, hle, hcl, hts3,
      Bool.not_true, Bool.false_eq_true, if_false, if_pos hle]
    exact List.mem_cons.mpr (Or.inr (List.mem_cons.mpr (Or.inr (List.mem_cons.mpr
      (Or.inr (List.mem_cons.mpr (Or.inl rfl)))))))
  · simp [streamHandler, hsec, hfile, fnodeSize, hstart, hend, hle, deliveredBytes, htn1, htn2]
  · intro bs hbs
    simp [streamHandler, hsec, hfile, fnodeSize, hstart, hend, hle, deliveredBytes,
      htn1, htn2] at hbs
    rw [← hbs]
    rw [List.length_take, List.length_drop]
    omega

/-- C5 witness: the theorem applied to a concrete 10-byte file with
`Range: bytes=2-5`. -/
theorem c5_witness :
    (streamHandler "/srv" "/media" fsSmall "x.mp4" (some "bytes=2-5")).status = 206 ∧
    ("Content-Range", "bytes " ++ toString (2 : Nat) ++ "-" ++ toString (5 : Nat) ++ "/"
        ++ toString (10 : Nat))
      ∈ (streamHandler "/srv" "/media" fsSmall "x.mp4" (some "bytes=2-5")).headers ∧
    ("Accept-Ranges", "bytes")
      ∈ (streamHandler "/srv" "/media" fsSmall "x.mp4" (some "bytes=2-5")).headers ∧
    ("Content-Length", toString (4 : Nat))
      ∈ (streamHandler "/srv" "/media" fsSmall "x.mp4" (some "bytes=2-5")).headers ∧
    deliveredBytes fsSmall (streamHandler "/srv" "/media" fsSmall "x.mp4" (some "bytes=2-5")).body
      = some [12, 13, 14, 15] ∧
    ∀ bs, deliveredBytes fsSmall
        (streamHandler "/srv" "/media" fsSmall "x.mp4" (some "bytes=2-5")).body = some bs →
      bs.length = 4 :=
  c5_stream_valid_range "/srv" "/media" "x.mp4" fsSmall
    [10, 11, 12, 13, 14, 15, 16, 17, 18, 19] "2024-01-01T00:00:00.000Z" "bytes=2-5" 2 5
    (by decide) (by decide) (by decide) (by decide) (by decide) (by decide)

/-- C8: a download request for an existing in-root file is answered with
the full file content and a `Content-Disposition: attachment` header
whose filename is the basename of the resolved path, for every requested
path (hence independent of its casing or encoding). -/
theorem c8_download_disposition (cwd root requestPath : String) (fs : FileSystem)
    (content : List Nat) (mt : String)
    (hsec : jsStartsWith (pathJoin root requestPath) (pathResolve cwd root) = true)
    (hfile : fsStat fs (pathJoin root requestPath) = some (.file content mt)) :
    (downloadHandler cwd root fs requestPath).status = 200 ∧
    ("Content-Disposition",
        "attachment; filename=\"" ++ pathBasename (pathJoin root requestPath) ++ "\"")
      ∈ (downloadHandler cwd root fs requestPath).headers ∧
    deliveredBytes fs (downloadHandler cwd root fs requestPath).body = some content := by
  refine ⟨?_, ?_, ?_⟩
  · simp [downloadHandler, hsec, hfile]
  · simp [downloadHandler, hsec, hfile]
  · simp [downloadHandler, hsec, hfile, deliveredBytes]

/-- C8 witness: the theorem applied to a concrete file; the attachment
filename is the file's basename. -/
theorem c8_witness :
    (downloadHandler "/srv" "/media" fsSmall "x.mp4").status = 200 ∧
    ("Content-Disposition",
        "attachment; filename=\"" ++ pathBasename (pathJoin "/media" "x.mp4") ++ "\"")
      ∈ (downloadHandler "/srv" "/media" fsSmall "x.mp4").headers ∧
    deliveredBytes fsSmall (downloadHandler "/srv" "/media" fsSmall "x.mp4").body
      = some [10, 11, 12, 13, 14, 15, 16, 17, 18, 19] :=
  c8_download_disposition "/srv" "/media" "x.mp4" fsSmall
    [10, 11, 12, 13, 14, 15, 16, 17, 18, 19] "2024-01-01T00:00:00.000Z"
    (by decide) (by decide)

/-- C7: in every successful directory listing, every folder entry
precedes every non-folder entry, and within each of the two groups every
pair of entries (in order) has case-insensitively non-decreasing names. -/
theorem c7_listing_sorted (cwd root : String) (fs : FileSystem) (param0 : Option String)
    (fields : List (String × Jval)) (items : List MediaEntry)
    (hbody : (browseHandler cwd root fs param0).body = .browseJson fields)
    (hitems : ("items", Jval.entries items) ∈ fields) :
    items.Pairwise entryOrderOk := by
  cases hsec : jsStartsWith (pathJoin root (param0.getD "")) (pathResolve cwd root) with
  | false => simp [browseHandler, hsec] at hbody
  | true =>
    rcases hstat : fsStat fs (pathJoin root (param0.getD "")) with _ | node
    · simp [browseHandler, hsec, hstat] at hbody
    · cases node with
      | file content mt => simp [browseHandler, hsec, hstat] at hbody
      | dir children sz mt =>
        by_cases hany :
            (List.map (fun item =>
                (item, fsStat fs (pathJoin (pathJoin root (param0.getD "")) item))) children).any
              (fun e => e.2.isNone) = true
        · simp [browseHandler, hsec, hstat, hany] at hbody
        · simp only [browseHandler, hsec, hstat, hany, Bool.not_true, Bool.false_eq_true,
            if_false, Option.getD_some, BodyV.browseJson.injEq] at hbody
          subst hbody
          rcases List.mem_cons.mp hitems with h | h
          · have hfst : ("items" : String) = "current_path" := congrArg Prod.fst h
            exact absurd hfst (by decide)
          · rcases List.mem_cons.mp h with h2 | h2
            · have hinj := (Prod.mk.injEq _ _ _ _).mp h2
              have := hinj.2
              injection this with hv
              rw [hv]
              exact pairwise_entryOrderOk_sortEntries _
            · simp at h2

/-- C7 witness: the theorem applied to the spec's example directory
(`b.mp4` file, `A` directory, `a.txt` file), whose listing comes back in
the order `A` (folder), `a.txt`, `b.mp4`. -/
theorem c7_witness :
    (browseHandler "/srv" "/media" fsListing none).body = .browseJson listingFields ∧
    listingItems.Pairwise entryOrderOk :=
  ⟨by decide,
   c7_listing_sorted "/srv" "/media" fsListing none listingFields listingItems
     (by decide) (by decide)⟩

/-- C10: the stream handler never checks that the resolved path is a
regular file: on an in-root path that is an existing directory it writes
status 200 (or 206 under a range header) with `Content-Length` taken from
the directory's stat size and a body that attempts to stream the
directory path (delivering no bytes), while the browse handler returns
400 in the symmetric file-instead-of-directory case. -/
theorem c10_stream_directory (cwd root requestPath : String) (fs : FileSystem)
    (children : List String) (sz : Nat) (mt : String)
    (hsec : jsStartsWith (pathJoin root requestPath) (pathResolve cwd root) = true)
    (hdir : fsStat fs (pathJoin root requestPath) = some (.dir children sz mt)) :
    (streamHandler cwd root fs requestPath none).status = 200 ∧
    ("Content-Length", toString sz) ∈ (streamHandler cwd root fs requestPath none).headers ∧
    (streamHandler cwd root fs requestPath none).body
      = .fileStream (pathJoin root requestPath) none ∧
    deliveredBytes fs (streamHandler cwd root fs requestPath none).body = none ∧
    (∀ (range : String) (s e : Int), parseStart range = some s → parseEnd range sz = some e →
      s ≤ e → (streamHandler cwd root fs requestPath (some range)).status = 206) ∧
    (∀ (fs2 : FileSystem) (param0 : Option String) (content : List Nat) (mt2 : String),
      jsStartsWith (pathJoin root (param0.getD "")) (pathResolve cwd root) = true →
      fsStat fs2 (pathJoin root (param0.getD "")) = some (.file content mt2) →
      (browseHandler cwd root fs2 param0).status = 400) := by
  refine ⟨?_, ?_, ?_, ?_, ?_, ?_⟩
  · simp [streamHandler, hsec, hdir]
  · simp [streamHandler, hsec, hdir, fnodeSize]
  · simp [streamHandler, hsec, hdir]
  · simp [streamHandler, hsec, hdir, deliveredBytes]
  · intro range s e hps hpe hle
    simp [streamHandler, hsec, hdir, fnodeSize, hps, hpe, hle]
  · intro fs2 param0 content mt2 hsec2 hfile2
    simp [browseHandler, hsec2, hfile2]

/-- C10 witness: streaming the directory `sub` yields 200 (and 206 with
`Range: bytes=0-0`), while browsing the file `f.txt` yields 400. -/
theorem c10_witness :
    (streamHandler "/srv" "/media" fsDir "sub" none).status = 200 ∧
    (streamHandler "/srv" "/media" fsDir "sub" (some "bytes=0-0")).status = 206 ∧
    (browseHandler "/srv" "/media" fsDir (some "f.txt")).status = 400 :=
  have h := c10_stream_directory "/srv" "/media" "sub" fsDir ["c.mp4"] 4096
    "2024-01-01T00:00:00.000Z" (by decide) (by decide)
  ⟨h.1, h.2.2.2.2.1 "bytes=0-0" 0 0 (by decide) (by decide) (by decide),
   h.2.2.2.2.2 fsDir (some "f.txt") [65, 66] "2024-01-01T00:00:00.000Z"
     (by decide) (by decide)⟩

end MediaApp
